import Mathlib

/-!
Verification development for ThemePulse: a live classroom theme-extraction
tool.  The repository ships the React frontend (Home, Student, Admin pages
and the API client) together with documentation of the backend engine
(session store, provider fallback chain, theme extractor, summarization
scheduler, live distribution hub).  The backend source itself is not part
of the checked tree, so the backend components are modelled from the
specification; the frontend components are embedded from the TypeScript
source directly.
-/

deriving instance DecidableEq for Except

namespace ThemePulse

/-! ## Data model -/

/-- A student's submitted response.  Modelled from the spec: the backend
Response record (identifier, student display name, answer text) is not in
the checked tree; fields follow the spec's data model (§3 Response). -/
structure Response where
  id : Nat
  student_name : String
  answer : String
deriving Repr, DecidableEq

/-- A theme card, as declared in `frontend/src/api.ts` (`interface Theme`):
title, description, and the attributed student names. -/
structure Theme where
  title : String
  description : String
  student_names : List String
deriving Repr, DecidableEq

/-! ## Theme Extractor

Modelled from the spec (§4.3): the backend extractor source is not in the
checked tree.  The extractor recovers a structured theme list from the
model's free-form completion (tolerating surrounding prose), then
post-processes each recovered theme: (a) drop attributed names absent from
the known responses, (b) deduplicate names keeping the first occurrence,
(c) drop themes with empty title or description, (d) cap the theme count. -/

/-- A theme as recovered from the raw model output, before the
hallucination guard and deduplication are applied. -/
structure RawTheme where
  title : String
  description : String
  student_names : List String
deriving Repr, DecidableEq

/-- Split a character list on a separator character. -/
def splitOnChar (c : Char) : List Char → List (List Char)
  | [] => [[]]
  | x :: xs =>
    let r := splitOnChar c xs
    if x = c then [] :: r
    else
      match r with
      | [] => [[x]]
      | y :: ys => (x :: y) :: ys

/-- Strip leading and trailing whitespace from a character list. -/
def trimChars (l : List Char) : List Char :=
  ((l.dropWhile Char.isWhitespace).reverse.dropWhile Char.isWhitespace).reverse

/-- Strip leading and trailing whitespace from a string (the embedding of
the trim operation used throughout the app). -/
def trimStr (s : String) : String := String.mk (trimChars s.data)

/-- Modelled from the spec: split a comma-separated attribution field into
individual trimmed, non-empty names. -/
def parseNameList (s : List Char) : List String :=
  (((splitOnChar ',' s).map trimChars).filter
      (fun cs => !cs.isEmpty)).map String.mk

/-- Modelled from the spec: recover one theme from one line of model
output when the line has the `title | description | names` shape; lines of
surrounding prose (no separator) are ignored. -/
def parseThemeLine (line : List Char) : Option RawTheme :=
  match splitOnChar '|' line with
  | [t, d] => some ⟨String.mk (trimChars t), String.mk (trimChars d), []⟩
  | [t, d, ns] => some ⟨String.mk (trimChars t), String.mk (trimChars d),
      parseNameList ns⟩
  | _ => none

/-- Modelled from the spec: defensively recover a list of candidate themes
from the raw completion text, skipping unparseable lines. -/
def recoverThemes (raw : String) : List RawTheme :=
  (splitOnChar '\n' raw.data).filterMap parseThemeLine

/-- Deduplicate a list of names keeping the first occurrence of each,
carrying the set of names already seen. -/
def dedupFirstAux (seen : List String) : List String → List String
  | [] => []
  | x :: xs =>
    if seen.contains x then dedupFirstAux seen xs
    else x :: dedupFirstAux (x :: seen) xs

/-- Deduplicate a list of names, keeping the first occurrence of each. -/
def dedupFirst (l : List String) : List String := dedupFirstAux [] l

/-- Post-process one theme's attributed names: drop names not among the
known student names (hallucination guard), then deduplicate keeping
first-seen order. -/
def processNames (names : List String) (known : List String) : List String :=
  dedupFirst (names.filter (fun n => known.contains n))

/-- Maximum number of themes kept in one summary. -/
def MAX_THEMES : Nat := 6

/-- Build the final theme from a recovered theme and the known names. -/
def mkTheme (known : List String) (rt : RawTheme) : Theme :=
  { title := rt.title
    description := rt.description
    student_names := processNames rt.student_names known }

/-- Apply the guard, the emptiness filter and the cap to the recovered
themes. -/
def postProcess (raws : List RawTheme) (known : List String) : List Theme :=
  (((raws.map (mkTheme known)).filter
      (fun t => !t.title.data.isEmpty && !t.description.data.isEmpty)).take
    MAX_THEMES)

/-- Modelled from the spec: `extract(rawText, knownResponses)` parses the
raw completion into themes and fails with MalformedOutput when nothing
usable can be recovered. -/
def extract (rawText : String) (knownResponses : List Response) :
    Except String (List Theme) :=
  let known := knownResponses.map Response.student_name
  let themes := postProcess (recoverThemes rawText) known
  if themes.isEmpty then Except.error "MalformedOutput" else Except.ok themes

/-! ### Extractor lemmas -/

theorem dedupFirstAux_sublist (seen l : List String) :
    (dedupFirstAux seen l).Sublist l := by
  induction l generalizing seen with
  | nil => simp [dedupFirstAux]
  | cons x xs ih =>
    rw [dedupFirstAux]
    split
    · exact (ih seen).cons x
    · exact (ih (x :: seen)).cons₂ x

theorem mem_dedupFirstAux {x : String} {seen l : List String}
    (h : x ∈ dedupFirstAux seen l) : x ∈ l ∧ x ∉ seen := by
  induction l generalizing seen with
  | nil => simp [dedupFirstAux] at h
  | cons y ys ih =>
    rw [dedupFirstAux] at h
    split at h
    · obtain ⟨h1, h2⟩ := ih h
      exact ⟨List.mem_cons_of_mem _ h1, h2⟩
    · rename_i hns
      rcases List.mem_cons.mp h with rfl | hmem
      · exact ⟨List.mem_cons_self _ _, by simpa using hns⟩
      · obtain ⟨h1, h2⟩ := ih hmem
        exact ⟨List.mem_cons_of_mem _ h1, fun hs => h2 (List.mem_cons_of_mem _ hs)⟩

theorem dedupFirstAux_nodup (seen l : List String) :
    (dedupFirstAux seen l).Nodup := by
  induction l generalizing seen with
  | nil => simp [dedupFirstAux]
  | cons y ys ih =>
    rw [dedupFirstAux]
    split
    · exact ih seen
    · refine List.nodup_cons.mpr ⟨fun hy => ?_, ih (y :: seen)⟩
      exact (mem_dedupFirstAux hy).2 (List.mem_cons_self _ _)

theorem dedupFirst_sublist (l : List String) : (dedupFirst l).Sublist l :=
  dedupFirstAux_sublist [] l

theorem mem_of_mem_dedupFirst {x : String} {l : List String}
    (h : x ∈ dedupFirst l) : x ∈ l :=
  (dedupFirst_sublist l).mem h

theorem dedupFirst_nodup (l : List String) : (dedupFirst l).Nodup :=
  dedupFirstAux_nodup [] l

theorem dedupFirstAux_pairwise_indexOf (seen l : List String) :
    (dedupFirstAux seen l).Pairwise (fun a b => l.indexOf a < l.indexOf b) := by
  induction l generalizing seen with
  | nil => simp [dedupFirstAux]
  | cons y ys ih =>
    rw [dedupFirstAux]
    split
    · rename_i hy
      have hy' : y ∈ seen := by simpa using hy
      refine (ih seen).imp_of_mem ?_
      intro a b ha hb hr
      have hay : a ≠ y := fun h => (mem_dedupFirstAux ha).2 (h ▸ hy')
      have hby : b ≠ y := fun h => (mem_dedupFirstAux hb).2 (h ▸ hy')
      rw [List.indexOf_cons_ne _ (Ne.symm hay), List.indexOf_cons_ne _ (Ne.symm hby)]
      exact Nat.succ_lt_succ hr
    · refine List.pairwise_cons.mpr ⟨?_, ?_⟩
      · intro b hb
        have hbne : b ≠ y := fun h =>
          (mem_dedupFirstAux hb).2 (h ▸ List.mem_cons_self _ _)
        rw [List.indexOf_cons_self, List.indexOf_cons_ne _ (Ne.symm hbne)]
        exact Nat.succ_pos _
      · refine (ih (y :: seen)).imp_of_mem ?_
        intro a b ha hb hr
        have hay : a ≠ y := fun h =>
          (mem_dedupFirstAux ha).2 (h ▸ List.mem_cons_self _ _)
        have hby : b ≠ y := fun h =>
          (mem_dedupFirstAux hb).2 (h ▸ List.mem_cons_self _ _)
        rw [List.indexOf_cons_ne _ (Ne.symm hay), List.indexOf_cons_ne _ (Ne.symm hby)]
        exact Nat.succ_lt_succ hr

/-- Filtering preserves the relative order of first occurrences: when two
elements of the filtered list appear at increasing positions, their first
occurrences in the original list are in the same relative order. -/
theorem indexOf_filter_lt {p : String → Bool} {xs : List String} {a b : String}
    (ha : a ∈ xs.filter p) (hb : b ∈ xs.filter p)
    (h : (xs.filter p).indexOf a < (xs.filter p).indexOf b) :
    xs.indexOf a < xs.indexOf b := by
  induction xs with
  | nil => simp at ha
  | cons y ys ih =>
    by_cases hpy : p y = true
    · rw [List.filter_cons_of_pos hpy] at ha hb h
      by_cases hbeq : b = y
      · subst hbeq
        rw [List.indexOf_cons_self] at h
        exact absurd h (Nat.not_lt_zero _)
      · by_cases haeq : a = y
        · subst haeq
          rw [List.indexOf_cons_self, List.indexOf_cons_ne _ (Ne.symm hbeq)]
          exact Nat.succ_pos _
        · rw [List.indexOf_cons_ne _ (Ne.symm haeq),
            List.indexOf_cons_ne _ (Ne.symm hbeq)] at h
          have ha' : a ∈ ys.filter p := (List.mem_cons.mp ha).resolve_left haeq
          have hb' : b ∈ ys.filter p := (List.mem_cons.mp hb).resolve_left hbeq
          rw [List.indexOf_cons_ne _ (Ne.symm haeq),
            List.indexOf_cons_ne _ (Ne.symm hbeq)]
          exact Nat.succ_lt_succ (ih ha' hb' (Nat.lt_of_succ_lt_succ h))
    · rw [List.filter_cons_of_neg hpy] at ha hb h
      have haeq : a ≠ y := fun he => hpy (he ▸ List.of_mem_filter ha)
      have hbeq : b ≠ y := fun he => hpy (he ▸ List.of_mem_filter hb)
      rw [List.indexOf_cons_ne _ (Ne.symm haeq),
        List.indexOf_cons_ne _ (Ne.symm hbeq)]
      exact Nat.succ_lt_succ (ih ha hb h)

theorem mem_processNames_mem_known {n : String} {names known : List String}
    (h : n ∈ processNames names known) : n ∈ known := by
  have hf := mem_of_mem_dedupFirst h
  have := List.of_mem_filter hf
  simpa using this

theorem processNames_nodup (names known : List String) :
    (processNames names known).Nodup :=
  dedupFirst_nodup _

/-- `processNames` lists names in the order of their first occurrence in
the attributed-name list. -/
theorem processNames_pairwise_indexOf (names known : List String) :
    (processNames names known).Pairwise
      (fun a b => names.indexOf a < names.indexOf b) := by
  refine (dedupFirstAux_pairwise_indexOf [] _).imp_of_mem ?_
  intro a b ha hb hr
  exact indexOf_filter_lt (mem_of_mem_dedupFirst ha)
    (mem_of_mem_dedupFirst hb) hr

/-- Every theme produced by `postProcess` arises from one recovered
theme. -/
theorem mem_postProcess {t : Theme} {raws : List RawTheme} {known : List String}
    (h : t ∈ postProcess raws known) : ∃ rt ∈ raws, t = mkTheme known rt := by
  unfold postProcess at h
  have h1 := List.mem_of_mem_take h
  have h2 := List.mem_of_mem_filter h1
  obtain ⟨rt, hrt, hteq⟩ := List.mem_map.mp h2
  exact ⟨rt, hrt, hteq.symm⟩

/-- When `extract` succeeds, its result is exactly the post-processed
recovered theme list. -/
theorem extract_ok_eq {rawText : String} {knownResponses : List Response}
    {themes : List Theme} (h : extract rawText knownResponses = Except.ok themes) :
    themes = postProcess (recoverThemes rawText)
      (knownResponses.map Response.student_name) := by
  by_cases hem : (postProcess (recoverThemes rawText)
      (knownResponses.map Response.student_name)).isEmpty
  · unfold extract at h
    simp [hem] at h
  · unfold extract at h
    simp [hem] at h
    exact h.symm

/-! ## Claim theorems for the Theme Extractor -/

/-- C1: every theme in the sequence returned by `extract` has a
`student_names` list that is a subset of the student display names
occurring in the known responses — for arbitrary raw model text the
extractor never invents names. -/
theorem extract_no_invented_names (rawText : String) (knownResponses : List Response)
    (themes : List Theme) (h : extract rawText knownResponses = Except.ok themes) :
    ∀ t ∈ themes, ∀ n ∈ t.student_names,
      n ∈ knownResponses.map Response.student_name := by
  intro t ht n hn
  rw [extract_ok_eq h] at ht
  obtain ⟨rt, _, rfl⟩ := mem_postProcess ht
  exact mem_processNames_mem_known hn

/-- Witness for C1 at a concrete malformed-ish completion: the
hallucinated name `Zed` is dropped and the surviving attributed name is a
known student name. -/
theorem extract_no_invented_names_witness :
    ("Alice" : String) ∈ [Response.mk 0 "Alice" "ans"].map Response.student_name :=
  extract_no_invented_names "Growth|Students discussed growth|Alice, Zed"
    [Response.mk 0 "Alice" "ans"]
    [Theme.mk "Growth" "Students discussed growth" ["Alice"]] (by decide)
    (Theme.mk "Growth" "Students discussed growth" ["Alice"]) (by decide)
    "Alice" (by decide)

/-- C8: every theme returned by `extract` carries attributed names with no
duplicates, and those names appear in the order of their first occurrence
in the attributed-name list recovered from the model output. -/
theorem extract_names_dedup_first_seen (rawText : String)
    (knownResponses : List Response) (themes : List Theme)
    (h : extract rawText knownResponses = Except.ok themes) :
    ∀ t ∈ themes, t.student_names.Nodup ∧
      ∃ rt ∈ recoverThemes rawText,
        t.student_names =
          processNames rt.student_names (knownResponses.map Response.student_name) ∧
        t.student_names.Pairwise
          (fun a b => rt.student_names.indexOf a < rt.student_names.indexOf b) := by
  intro t ht
  rw [extract_ok_eq h] at ht
  obtain ⟨rt, hrt, rfl⟩ := mem_postProcess ht
  exact ⟨processNames_nodup _ _,
    rt, hrt, rfl, processNames_pairwise_indexOf _ _⟩

/-- Witness for C8 at a concrete completion in which the name `Bob` is
attributed twice: the result keeps one copy of each name in first-seen
order. -/
theorem extract_names_dedup_first_seen_witness :
    (["Bob", "Alice"] : List String).Nodup ∧
    ∃ rt ∈ recoverThemes "T|D|Bob, Alice, Bob",
      (["Bob", "Alice"] : List String) =
        processNames rt.student_names
          ([Response.mk 0 "Alice" "a", Response.mk 1 "Bob" "b"].map
            Response.student_name) ∧
      (["Bob", "Alice"] : List String).Pairwise
        (fun a b => rt.student_names.indexOf a < rt.student_names.indexOf b) :=
  extract_names_dedup_first_seen "T|D|Bob, Alice, Bob"
    [Response.mk 0 "Alice" "a", Response.mk 1 "Bob" "b"]
    [Theme.mk "T" "D" ["Bob", "Alice"]] (by decide)
    (Theme.mk "T" "D" ["Bob", "Alice"]) (by decide)

/-! ## Provider Fallback Client

Modelled from the spec (§4.2) and the README's fallback-chain description:
the backend client source is not in the checked tree.  A provider is
modelled by its identifier together with the outcome of its one bounded
completion attempt: either the raw completion text, or a failure message
(covering timeout, non-success status, network error and rate-limit alike,
which the chain treats identically). -/

/-- One provider in the configured chain: its model identifier and the
outcome its single completion attempt would produce. -/
abbrev ProviderOutcome := String × Except String String

/-- Whether a provider's attempt fails. -/
def isFailure (q : ProviderOutcome) : Bool :=
  match q.2 with
  | Except.error _ => true
  | Except.ok _ => false

/-- Walk the chain left to right, remembering the most recent error. -/
def completeAux (lastErr : String) :
    List ProviderOutcome → Except String (String × String)
  | [] => Except.error lastErr
  | (name, Except.ok text) :: _ => Except.ok (name, text)
  | (_, Except.error e) :: rest => completeAux e rest

/-- Modelled from the spec: `complete` tries the ordered provider list,
returns the first success (provider identifier and raw text), and fails
with the last provider's error when every provider fails. -/
def complete (providers : List ProviderOutcome) :
    Except String (String × String) :=
  completeAux "ProviderExhausted: no providers configured" providers

/-- The error of the last provider in the chain (or the supplied default
when the chain is empty or ends in a success). -/
def lastChainError (dflt : String) (ps : List ProviderOutcome) : String :=
  match ps.getLast? with
  | some (_, Except.error e) => e
  | _ => dflt

theorem completeAux_first_success (pre : List ProviderOutcome)
    (name text : String) (post : List ProviderOutcome) (le : String)
    (h : ∀ q ∈ pre, isFailure q = true) :
    completeAux le (pre ++ (name, Except.ok text) :: post) =
      Except.ok (name, text) := by
  induction pre generalizing le with
  | nil => simp [completeAux]
  | cons q rest ih =>
    obtain ⟨qn, r⟩ := q
    match r with
    | Except.ok t =>
      have := h (qn, Except.ok t) (List.mem_cons_self _ _)
      simp [isFailure] at this
    | Except.error e =>
      rw [List.cons_append, completeAux]
      exact ih e (fun q hq => h q (List.mem_cons_of_mem _ hq))

/-- On a non-empty all-failing chain, the last error does not depend on
the default. -/
theorem lastChainError_indep (d1 d2 : String) (ps : List ProviderOutcome)
    (hne : ps ≠ []) (h : ∀ q ∈ ps, isFailure q = true) :
    lastChainError d1 ps = lastChainError d2 ps := by
  induction ps with
  | nil => simp at hne
  | cons q rest ih =>
    cases rest with
    | nil =>
      obtain ⟨qn, r⟩ := q
      have hq := h (qn, r) (List.mem_cons_self _ _)
      match r with
      | Except.ok t => simp [isFailure] at hq
      | Except.error e => simp [lastChainError]
    | cons r rs =>
      have e1 : lastChainError d1 (q :: r :: rs) = lastChainError d1 (r :: rs) := by
        simp [lastChainError, List.getLast?_cons_cons]
      have e2 : lastChainError d2 (q :: r :: rs) = lastChainError d2 (r :: rs) := by
        simp [lastChainError, List.getLast?_cons_cons]
      rw [e1, e2]
      exact ih (by simp) (fun q hq => h q (List.mem_cons_of_mem _ hq))

theorem completeAux_all_fail (ps : List ProviderOutcome) (le : String)
    (h : ∀ q ∈ ps, isFailure q = true) :
    completeAux le ps = Except.error (lastChainError le ps) := by
  induction ps generalizing le with
  | nil => simp [completeAux, lastChainError]
  | cons q rest ih =>
    obtain ⟨name, r⟩ := q
    match r with
    | Except.ok text =>
      have := h (name, Except.ok text) (List.mem_cons_self _ _)
      simp [isFailure] at this
    | Except.error e =>
      have hrest : ∀ q ∈ rest, isFailure q = true :=
        fun q hq => h q (List.mem_cons_of_mem _ hq)
      rw [completeAux, ih e hrest]
      congr 1
      cases rest with
      | nil => simp [lastChainError]
      | cons r rs =>
        have h2 : lastChainError le ((name, Except.error e) :: r :: rs) =
            lastChainError le (r :: rs) := by
          simp [lastChainError, List.getLast?_cons_cons]
        rw [h2]
        exact lastChainError_indep e le (r :: rs) (by simp) hrest

/-- C3: the fallback chain is evaluated left to right: the first
succeeding provider's identifier and raw text are returned (every earlier
provider having failed), and when every provider fails the call fails
carrying the last provider's error. -/
theorem complete_fallback_chain :
    (∀ (pre : List ProviderOutcome) (name text : String)
        (post : List ProviderOutcome),
      (∀ q ∈ pre, isFailure q = true) →
      complete (pre ++ (name, Except.ok text) :: post) = Except.ok (name, text)) ∧
    (∀ (ps : List ProviderOutcome) (name e : String),
      (∀ q ∈ ps, isFailure q = true) →
      ps.getLast? = some (name, Except.error e) →
      complete ps = Except.error e) := by
  constructor
  · intro pre name text post hpre
    exact completeAux_first_success pre name text post _ hpre
  · intro ps name e hall hlast
    rw [complete, completeAux_all_fail ps _ hall]
    congr 1
    simp [lastChainError, hlast]

/-- Witness for C3: with the first provider timing out and the second
succeeding, `complete` returns the second provider's text; with both
providers failing, `complete` carries the second (last) provider's
error. -/
theorem complete_fallback_chain_witness :
    complete [("google/gemini-2.0-flash-001", Except.error "timeout"),
      ("meta-llama/llama-3.1-8b-instruct", Except.ok "raw themes")] =
      Except.ok ("meta-llama/llama-3.1-8b-instruct", "raw themes") ∧
    complete [("google/gemini-2.0-flash-001", Except.error "timeout"),
      ("meta-llama/llama-3.1-8b-instruct", Except.error "rate limited")] =
      Except.error "rate limited" :=
  ⟨complete_fallback_chain.1
      [("google/gemini-2.0-flash-001", Except.error "timeout")]
      "meta-llama/llama-3.1-8b-instruct" "raw themes" [] (by decide),
    complete_fallback_chain.2
      [("google/gemini-2.0-flash-001", Except.error "timeout"),
        ("meta-llama/llama-3.1-8b-instruct", Except.error "rate limited")]
      "meta-llama/llama-3.1-8b-instruct" "rate limited" (by decide) (by decide)⟩

/-! ## Summarization attempt and the stored Summary

Modelled from the spec (§4.4 timer transition, §7, §8): one summarization
attempt reads a snapshot of the session's responses, runs the provider
chain, parses the completion, and either atomically replaces the stored
Summary and publishes a `summary` event, or publishes an `error` event
carrying the failure reason and the current response count, leaving the
stored Summary untouched. -/

/-- A computed summary: the themes, the response count at computation
time, and the identifier of the model that produced it. -/
structure Summary where
  themes : List Theme
  response_count : Nat
  model_used : Option String
deriving Repr, DecidableEq

/-- The per-session state the summarization path touches. -/
structure SessionState where
  question : String
  responses : List Response
  summary : Option Summary
deriving Repr, DecidableEq

/-- Events published through the Live Distribution Hub. -/
inductive HubEvent where
  | summaryEvent (s : Summary)
  | errorEvent (message : String) (response_count : Nat)
  | statusEvent (response_count min_required : Nat)
deriving Repr, DecidableEq

/-- Modelled from the spec: one summarization attempt over the session's
current responses, given the outcome each configured provider would
produce. -/
def runSummarization (providers : List ProviderOutcome)
    (sess : SessionState) : SessionState × List HubEvent :=
  match complete providers with
  | Except.error msg => (sess, [HubEvent.errorEvent msg sess.responses.length])
  | Except.ok (model, raw) =>
    match extract raw sess.responses with
    | Except.error msg => (sess, [HubEvent.errorEvent msg sess.responses.length])
    | Except.ok themes =>
      let sum : Summary := ⟨themes, sess.responses.length, some model⟩
      ({ sess with summary := some sum }, [HubEvent.summaryEvent sum])

/-- C2: when every configured provider fails, the attempt publishes an
`error` event carrying the failure message and the current response count,
and the session's stored Summary is exactly what it was before. -/
theorem all_providers_fail_error_event (providers : List ProviderOutcome)
    (sess : SessionState) (msg : String)
    (h : complete providers = Except.error msg) :
    (runSummarization providers sess).1.summary = sess.summary ∧
    (runSummarization providers sess).2 =
      [HubEvent.errorEvent msg sess.responses.length] := by
  rw [runSummarization, h]
  exact ⟨rfl, rfl⟩

/-- Witness for C2: with both providers failing, a session holding a prior
summary keeps it and the published events are exactly one error event with
the current response count. -/
theorem all_providers_fail_error_event_witness :
    (runSummarization
        [("google/gemini-2.0-flash-001", Except.error "timeout"),
          ("meta-llama/llama-3.1-8b-instruct", Except.error "boom")]
        ⟨"Q", [Response.mk 0 "Alice" "a"],
          some ⟨[Theme.mk "T" "D" ["Alice"]], 1, some "m"⟩⟩).1.summary =
      some ⟨[Theme.mk "T" "D" ["Alice"]], 1, some "m"⟩ ∧
    (runSummarization
        [("google/gemini-2.0-flash-001", Except.error "timeout"),
          ("meta-llama/llama-3.1-8b-instruct", Except.error "boom")]
        ⟨"Q", [Response.mk 0 "Alice" "a"],
          some ⟨[Theme.mk "T" "D" ["Alice"]], 1, some "m"⟩⟩).2 =
      [HubEvent.errorEvent "boom" 1] :=
  all_providers_fail_error_event
    [("google/gemini-2.0-flash-001", Except.error "timeout"),
      ("meta-llama/llama-3.1-8b-instruct", Except.error "boom")]
    ⟨"Q", [Response.mk 0 "Alice" "a"],
      some ⟨[Theme.mk "T" "D" ["Alice"]], 1, some "m"⟩⟩ "boom" (by decide)

/-! ## Summarization Scheduler

Modelled from the spec (§4.4): the backend scheduler source is not in the
checked tree.  The per-session state machine has states `Idle` (no
subscribers), `Armed` (subscribers present, response count below the
minimum threshold) and `Running` (eligible to summarize); the step
function records which actions each event triggers, a `providerCall`
action standing for one immediate summarization (one walk of the provider
chain). -/

/-- Scheduler states (spec §4.4). -/
inductive SchedState where
  | Idle
  | Armed
  | Running
deriving Repr, DecidableEq

/-- Events driving one session's scheduler. -/
inductive SchedEvent where
  | subscriberConnect
  | subscriberDisconnect
  | responseArrived
  | timerFired
deriving Repr, DecidableEq

/-- Actions a scheduler step triggers. -/
inductive SchedAction where
  | providerCall
  | statusPublish (response_count min_required : Nat)
deriving Repr, DecidableEq, BEq

/-- One session's scheduler bookkeeping. -/
structure Sched where
  state : SchedState
  subscribers : Nat
  responseCount : Nat
deriving Repr, DecidableEq

/-- Minimum number of responses before summarization begins. -/
def MIN_RESPONSES : Nat := 3

/-- Modelled from the spec: the scheduler transition function (§4.4). -/
def schedStep (s : Sched) (e : SchedEvent) : Sched × List SchedAction :=
  match e with
  | SchedEvent.subscriberConnect =>
    if s.subscribers = 0 then
      if MIN_RESPONSES ≤ s.responseCount then
        ({ s with state := SchedState.Running, subscribers := 1 },
          [SchedAction.providerCall])
      else
        ({ s with state := SchedState.Armed, subscribers := 1 }, [])
    else ({ s with subscribers := s.subscribers + 1 }, [])
  | SchedEvent.subscriberDisconnect =>
    if s.subscribers ≤ 1 then
      ({ s with state := SchedState.Idle, subscribers := 0 }, [])
    else ({ s with subscribers := s.subscribers - 1 }, [])
  | SchedEvent.responseArrived =>
    let c := s.responseCount + 1
    match s.state with
    | SchedState.Idle => ({ s with responseCount := c }, [])
    | SchedState.Armed =>
      if MIN_RESPONSES ≤ c then
        ({ s with state := SchedState.Running, responseCount := c },
          [SchedAction.statusPublish c MIN_RESPONSES, SchedAction.providerCall])
      else
        ({ s with responseCount := c },
          [SchedAction.statusPublish c MIN_RESPONSES])
    | SchedState.Running =>
      ({ s with responseCount := c },
        [SchedAction.statusPublish c MIN_RESPONSES])
  | SchedEvent.timerFired =>
    match s.state with
    | SchedState.Running => (s, [SchedAction.providerCall])
    | _ => (s, [])

/-- Number of provider (summarization) calls a step triggers. -/
def providerCalls (acts : List SchedAction) : Nat :=
  (acts.filter (fun a => a == SchedAction.providerCall)).length

/-- C4: from an `Armed` scheduler (response count below the threshold), a
step that does not reach `Running` makes no provider call, and a response
arrival that raises the count to the threshold makes exactly one immediate
provider call and moves the scheduler to `Running`. -/
theorem armed_no_provider_call (s : Sched) (e : SchedEvent)
    (hA : s.state = SchedState.Armed)
    (hc : s.responseCount < MIN_RESPONSES) :
    ((schedStep s e).1.state ≠ SchedState.Running →
      providerCalls (schedStep s e).2 = 0) ∧
    (e = SchedEvent.responseArrived → MIN_RESPONSES ≤ s.responseCount + 1 →
      (schedStep s e).1.state = SchedState.Running ∧
      providerCalls (schedStep s e).2 = 1) := by
  cases e with
  | subscriberConnect =>
    refine ⟨fun hns => ?_, fun he => by cases he⟩
    by_cases h0 : s.subscribers = 0
    · by_cases hge : MIN_RESPONSES ≤ s.responseCount
      · omega
      · simp [schedStep, h0, hge, providerCalls]
    · simp [schedStep, h0, providerCalls]
  | subscriberDisconnect =>
    refine ⟨fun hns => ?_, fun he => by cases he⟩
    by_cases h1 : s.subscribers ≤ 1 <;>
      simp [schedStep, h1, providerCalls]
  | responseArrived =>
    constructor
    · intro hns
      by_cases hge : MIN_RESPONSES ≤ s.responseCount + 1
      · exact absurd (by simp [schedStep, hA, hge]) hns
      · simp only [schedStep, hA, hge, if_false, ite_false, providerCalls]
        rfl
    · intro _ hge
      constructor
      · simp [schedStep, hA, hge]
      · simp only [schedStep, hA, hge, if_true, ite_true, providerCalls]
        rfl
  | timerFired =>
    refine ⟨fun hns => ?_, fun he => by cases he⟩
    simp [schedStep, hA, providerCalls]

/-- Witness for C4 at a concrete `Armed` scheduler with two responses: the
third response's arrival turns it `Running` with exactly one provider
call, while a timer tick alone makes none. -/
theorem armed_no_provider_call_witness :
    ((schedStep ⟨SchedState.Armed, 1, 2⟩ SchedEvent.timerFired).1.state ≠
        SchedState.Running →
      providerCalls (schedStep ⟨SchedState.Armed, 1, 2⟩
        SchedEvent.timerFired).2 = 0) ∧
    (SchedEvent.timerFired = SchedEvent.responseArrived →
      MIN_RESPONSES ≤ 2 + 1 →
      (schedStep ⟨SchedState.Armed, 1, 2⟩ SchedEvent.timerFired).1.state =
        SchedState.Running ∧
      providerCalls (schedStep ⟨SchedState.Armed, 1, 2⟩
        SchedEvent.timerFired).2 = 1) ∧
    ((schedStep ⟨SchedState.Armed, 1, 2⟩ SchedEvent.responseArrived).1.state ≠
        SchedState.Running →
      providerCalls (schedStep ⟨SchedState.Armed, 1, 2⟩
        SchedEvent.responseArrived).2 = 0) ∧
    (SchedEvent.responseArrived = SchedEvent.responseArrived →
      MIN_RESPONSES ≤ 2 + 1 →
      (schedStep ⟨SchedState.Armed, 1, 2⟩ SchedEvent.responseArrived).1.state =
        SchedState.Running ∧
      providerCalls (schedStep ⟨SchedState.Armed, 1, 2⟩
        SchedEvent.responseArrived).2 = 1) :=
  ⟨(armed_no_provider_call ⟨SchedState.Armed, 1, 2⟩ SchedEvent.timerFired
      (by decide) (by decide)).1,
    (armed_no_provider_call ⟨SchedState.Armed, 1, 2⟩ SchedEvent.timerFired
      (by decide) (by decide)).2,
    (armed_no_provider_call ⟨SchedState.Armed, 1, 2⟩ SchedEvent.responseArrived
      (by decide) (by decide)).1,
    (armed_no_provider_call ⟨SchedState.Armed, 1, 2⟩ SchedEvent.responseArrived
      (by decide) (by decide)).2⟩

/-! ## Session Store

Modelled from the spec (§4.1): the backend store source is not in the
checked tree.  Sessions are held in an addressable mutable store (modelled
as an association list keyed by session id); all mutation funnels through
the store's serialized operations, so a history of interleaved
`appendResponse` calls is embedded as the sequential application of the
calls in their linearization order. -/

/-- One session's stored record. -/
structure Session where
  question : String
  adminToken : String
  responses : List Response
  summary : Option Summary
deriving Repr, DecidableEq

/-- The store: sessions addressable by id. -/
abbrev Store := List (String × Session)

/-- Store-level failures (spec §7). -/
inductive StoreError where
  | notFound
  | validationError
deriving Repr, DecidableEq

/-- Input bounds (spec §4.1). -/
def NAME_MAX : Nat := 100

def ANSWER_MAX : Nat := 5000

def QUESTION_MAX : Nat := 1000

/-- Look a session up by id. -/
def lookupSession : Store → String → Option Session
  | [], _ => none
  | p :: rest, sid => if p.1 == sid then some p.2 else lookupSession rest sid

/-- Replace the stored record of one session. -/
def updateSession (st : Store) (sid : String) (s : Session) : Store :=
  st.map (fun p => if p.1 == sid then (p.1, s) else p)

/-- Whether a name/answer pair passes validation (spec §4.1). -/
def validResponse (name answer : String) : Bool :=
  !name.data.isEmpty && decide (name.length ≤ NAME_MAX) &&
    !answer.data.isEmpty && decide (answer.length ≤ ANSWER_MAX)

/-- Modelled from the spec: `appendResponse` fails with NotFound on an
unknown session, with ValidationError on empty or oversized input, and
otherwise appends the response and returns its id. -/
def appendResponse (st : Store) (sid name answer : String) :
    Except StoreError (Store × Nat) :=
  match lookupSession st sid with
  | none => Except.error StoreError.notFound
  | some sess =>
    if validResponse name answer then
      let rid := sess.responses.length
      let sess' := { sess with
        responses := sess.responses ++ [Response.mk rid name answer] }
      Except.ok (updateSession st sid sess', rid)
    else Except.error StoreError.validationError

/-- Modelled from the spec: session creation validates the question bound
and registers a fresh session under the supplied unguessable id and admin
token. -/
def createSession (st : Store) (sid adminToken question : String) :
    Except StoreError Store :=
  if !question.data.isEmpty && decide (question.length ≤ QUESTION_MAX) then
    Except.ok ((sid, Session.mk question adminToken [] none) :: st)
  else Except.error StoreError.validationError

/-- Apply a linearized history of `appendResponse` calls; failed calls
leave the store untouched. -/
def applyAppends (st : Store) : List (String × String × String) → Store
  | [] => st
  | (sid, name, ans) :: rest =>
    match appendResponse st sid name ans with
    | Except.ok (st', _) => applyAppends st' rest
    | Except.error _ => applyAppends st rest

/-- The successful calls of a linearized history, in order. -/
def successfulAppends (st : Store) :
    List (String × String × String) → List (String × String × String)
  | [] => []
  | (sid, name, ans) :: rest =>
    match appendResponse st sid name ans with
    | Except.ok (st', _) => (sid, name, ans) :: successfulAppends st' rest
    | Except.error _ => successfulAppends st rest

/-! ### Store lemmas -/

theorem lookupSession_updateSession_self {st : Store} {sid : String}
    {sess : Session} (h : lookupSession st sid = some sess) (s : Session) :
    lookupSession (updateSession st sid s) sid = some s := by
  induction st with
  | nil => simp [lookupSession] at h
  | cons p rest ih =>
    by_cases hk : (p.1 == sid) = true
    · simp [lookupSession, updateSession, hk]
    · simp only [lookupSession, if_neg hk] at h
      simp only [updateSession, List.map_cons, if_neg hk, lookupSession]
      exact ih h

theorem lookupSession_updateSession_ne {st : Store} {sid sid' : String}
    (hne : sid' ≠ sid) (s : Session) :
    lookupSession (updateSession st sid s) sid' = lookupSession st sid' := by
  induction st with
  | nil => simp [lookupSession, updateSession]
  | cons p rest ih =>
    by_cases hk : (p.1 == sid) = true
    · have hp : p.1 = sid := by simpa using hk
      have hk' : ¬(p.1 == sid') = true := by
        simp [hp]
        exact fun he => hne he.symm
      simp only [updateSession, List.map_cons, if_pos hk, lookupSession]
      rw [if_neg (by simpa using hk'), if_neg hk']
      exact ih
    · simp only [updateSession, List.map_cons, if_neg hk, lookupSession]
      by_cases hk2 : (p.1 == sid') = true
      · rw [if_pos hk2, if_pos hk2]
      · rw [if_neg hk2, if_neg hk2]
        exact ih

theorem appendResponse_ok_other {st st' : Store} {q name ans : String}
    {rid : Nat} (h : appendResponse st q name ans = Except.ok (st', rid))
    (sid : String) (hne : sid ≠ q) :
    lookupSession st' sid = lookupSession st sid := by
  unfold appendResponse at h
  split at h
  · cases h
  · rename_i sess hl
    split at h
    · injection h with h1
      cases h1
      exact lookupSession_updateSession_ne hne _
    · cases h

theorem appendResponse_ok_self {st st' : Store} {q name ans : String}
    {rid : Nat} (h : appendResponse st q name ans = Except.ok (st', rid)) :
    ∃ sess, lookupSession st q = some sess ∧
      lookupSession st' q = some { sess with
        responses := sess.responses ++
          [Response.mk sess.responses.length name ans] } := by
  unfold appendResponse at h
  split at h
  · cases h
  · rename_i sess hl
    split at h
    · injection h with h1
      cases h1
      exact ⟨sess, hl, lookupSession_updateSession_self hl _⟩
    · cases h

/-- C5: for every linearized history of `appendResponse` calls, a
session's resulting response sequence is its initial sequence followed by
exactly the successful calls that targeted it, in call order — nothing is
lost, duplicated or reordered, and the length grows by exactly the number
of successful calls. -/
theorem append_responses_linearized (reqs : List (String × String × String))
    (st : Store) (sid : String) (sess : Session)
    (h : lookupSession st sid = some sess) :
    ∃ sess', lookupSession (applyAppends st reqs) sid = some sess' ∧
      sess'.responses.map (fun r => (r.student_name, r.answer)) =
        sess.responses.map (fun r => (r.student_name, r.answer)) ++
          ((successfulAppends st reqs).filter (fun q => q.1 == sid)).map
            (fun q => (q.2.1, q.2.2)) ∧
      sess'.responses.length =
        sess.responses.length +
          ((successfulAppends st reqs).filter (fun q => q.1 == sid)).length := by
  induction reqs generalizing st sess with
  | nil => exact ⟨sess, by simpa [applyAppends, successfulAppends] using h⟩
  | cons req rest ih =>
    obtain ⟨qsid, qname, qans⟩ := req
    match happ : appendResponse st qsid qname qans with
    | Except.error e =>
      have happly : applyAppends st ((qsid, qname, qans) :: rest) =
          applyAppends st rest := by
        rw [applyAppends, happ]
      have hsucc : successfulAppends st ((qsid, qname, qans) :: rest) =
          successfulAppends st rest := by
        rw [successfulAppends, happ]
      rw [happly, hsucc]
      exact ih st sess h
    | Except.ok (st2, rid) =>
      have happly : applyAppends st ((qsid, qname, qans) :: rest) =
          applyAppends st2 rest := by
        rw [applyAppends, happ]
      have hsucc : successfulAppends st ((qsid, qname, qans) :: rest) =
          (qsid, qname, qans) :: successfulAppends st2 rest := by
        rw [successfulAppends, happ]
      rw [happly, hsucc]
      by_cases hq : (qsid == sid) = true
      · have hqe : qsid = sid := by simpa using hq
        subst hqe
        obtain ⟨sess0, hl0, hl2⟩ := appendResponse_ok_self happ
        rw [h] at hl0
        injection hl0 with hl0
        subst hl0
        obtain ⟨sess', hfin, hproj, hlen⟩ := ih st2 _ hl2
        refine ⟨sess', hfin, ?_, ?_⟩
        · rw [hproj]
          simp [List.filter_cons, hq]
        · rw [hlen]
          simp [List.filter_cons, hq]
          omega
      · have hne : sid ≠ qsid := fun he => hq (by simp [he])
        have hl2 : lookupSession st2 sid = some sess := by
          rw [appendResponse_ok_other happ sid hne, h]
        obtain ⟨sess', hfin, hproj, hlen⟩ := ih st2 _ hl2
        refine ⟨sess', hfin, ?_, ?_⟩
        · rw [hproj]
          simp [List.filter_cons, hq]
        · rw [hlen]
          simp [List.filter_cons, hq]

/-- Witness for C5 on a concrete history: of four calls, one hits an
unknown session and one fails validation; the session ends with its
initial response followed by exactly the two successful appends in
order. -/
theorem append_responses_linearized_witness :
    ∃ sess', lookupSession
        (applyAppends [("s", Session.mk "Q" "tok" [] none)]
          [("s", "Alice", "a1"), ("zz", "Bob", "b1"), ("s", "", "bad"),
            ("s", "Carol", "c1")]) "s" = some sess' ∧
      sess'.responses.map (fun r => (r.student_name, r.answer)) =
        ([] : List Response).map (fun r => (r.student_name, r.answer)) ++
          ((successfulAppends [("s", Session.mk "Q" "tok" [] none)]
              [("s", "Alice", "a1"), ("zz", "Bob", "b1"), ("s", "", "bad"),
                ("s", "Carol", "c1")]).filter (fun q => q.1 == "s")).map
            (fun q => (q.2.1, q.2.2)) ∧
      sess'.responses.length =
        ([] : List Response).length +
          ((successfulAppends [("s", Session.mk "Q" "tok" [] none)]
              [("s", "Alice", "a1"), ("zz", "Bob", "b1"), ("s", "", "bad"),
                ("s", "Carol", "c1")]).filter (fun q => q.1 == "s")).length :=
  append_responses_linearized
    [("s", "Alice", "a1"), ("zz", "Bob", "b1"), ("s", "", "bad"),
      ("s", "Carol", "c1")]
    [("s", Session.mk "Q" "tok" [] none)] "s" (Session.mk "Q" "tok" [] none)
    (by decide)

/-- C6: `appendResponse` fails with NotFound exactly on an unknown
session; on a known session it fails with ValidationError exactly when the
name or answer is empty or over its bound (name 100, answer 5000
characters) and succeeds otherwise, returning a response id; and session
creation only succeeds when the question is non-empty and at most 1000
characters. -/
theorem appendResponse_validation (st : Store) (sid name answer : String) :
    (lookupSession st sid = none →
      appendResponse st sid name answer = Except.error StoreError.notFound) ∧
    (∀ sess, lookupSession st sid = some sess →
      (appendResponse st sid name answer =
          Except.error StoreError.validationError ↔
        (name = "" ∨ NAME_MAX < name.length ∨ answer = "" ∨
          ANSWER_MAX < answer.length)) ∧
      (validResponse name answer = true →
        ∃ st' rid, appendResponse st sid name answer = Except.ok (st', rid))) ∧
    (∀ tok q st', createSession st sid tok q = Except.ok st' →
      q ≠ "" ∧ q.length ≤ QUESTION_MAX) := by
  refine ⟨fun hn => ?_, fun sess hs => ⟨?_, fun hv => ?_⟩, fun tok q st' hc => ?_⟩
  · rw [appendResponse, hn]
  · unfold appendResponse
    rw [hs]
    dsimp only
    by_cases hv : validResponse name answer = true
    · rw [if_pos hv]
      unfold validResponse at hv
      simp only [Bool.and_eq_true, Bool.not_eq_true', decide_eq_true_eq,
        List.isEmpty_eq_false] at hv
      constructor
      · intro he; cases he
      · intro hcases
        rcases hv with ⟨⟨⟨hn1, hn2⟩, ha1⟩, ha2⟩
        have hne : name ≠ "" := fun he => hn1 (by simp [he])
        have hae : answer ≠ "" := fun he => ha1 (by simp [he])
        rcases hcases with he | he | he | he
        · exact absurd he hne
        · omega
        · exact absurd he hae
        · omega
    · rw [if_neg hv]
      unfold validResponse at hv
      simp only [Bool.and_eq_true, Bool.not_eq_true', decide_eq_true_eq,
        List.isEmpty_eq_false, not_and, not_le] at hv
      constructor
      · intro _
        by_cases hn1 : name = ""
        · exact Or.inl hn1
        · by_cases hn2 : NAME_MAX < name.length
          · exact Or.inr (Or.inl hn2)
          · by_cases ha1 : answer = ""
            · exact Or.inr (Or.inr (Or.inl ha1))
            · refine Or.inr (Or.inr (Or.inr ?_))
              have hd1 : name.data ≠ [] := fun he => hn1 (by
                cases name with
                | mk d => simp at he; simp [he])
              have hd2 : answer.data ≠ [] := fun he => ha1 (by
                cases answer with
                | mk d => simp at he; simp [he])
              have := hv ⟨⟨hd1, by omega⟩, hd2⟩
              omega
      · intro _; rfl
  · unfold appendResponse
    rw [hs]
    dsimp only
    rw [if_pos hv]
    exact ⟨_, _, rfl⟩
  · unfold createSession at hc
    by_cases hq : (!q.data.isEmpty && decide (q.length ≤ QUESTION_MAX)) = true
    · simp only [Bool.and_eq_true, Bool.not_eq_true',
        List.isEmpty_eq_false, decide_eq_true_eq] at hq
      exact ⟨fun he => hq.1 (by simp [he]), hq.2⟩
    · rw [if_neg hq] at hc
      cases hc

/-- Witness for C6 at a concrete store: an unknown session id yields
NotFound, an empty name yields ValidationError, a valid pair succeeds, and
a created session's question respects the bound. -/
theorem appendResponse_validation_witness :
    appendResponse [("s", Session.mk "Q" "tok" [] none)] "zz" "Bob" "hi" =
      Except.error StoreError.notFound ∧
    appendResponse [("s", Session.mk "Q" "tok" [] none)] "s" "" "hi" =
      Except.error StoreError.validationError ∧
    (∃ st' rid, appendResponse [("s", Session.mk "Q" "tok" [] none)] "s"
      "Bob" "hi" = Except.ok (st', rid)) ∧
    ("Q2" ≠ "" ∧ "Q2".length ≤ QUESTION_MAX) :=
  ⟨(appendResponse_validation [("s", Session.mk "Q" "tok" [] none)] "zz"
      "Bob" "hi").1 (by decide),
    ((appendResponse_validation [("s", Session.mk "Q" "tok" [] none)] "s"
        "" "hi").2.1 (Session.mk "Q" "tok" [] none) (by decide)).1.mpr
      (Or.inl rfl),
    ((appendResponse_validation [("s", Session.mk "Q" "tok" [] none)] "s"
        "Bob" "hi").2.1 (Session.mk "Q" "tok" [] none) (by decide)).2
      (by decide),
    (appendResponse_validation [("s", Session.mk "Q" "tok" [] none)] "s2"
        "Bob" "hi").2.2 "tok2" "Q2"
      (("s2", Session.mk "Q2" "tok2" [] none) ::
        [("s", Session.mk "Q" "tok" [] none)]) (by decide)⟩

/-! ## Frontend: stream URL and dashboard reconnect

Embedded from `frontend/src/api.ts` (`getStreamUrl`) and the Admin page's
`es.onerror` handler (close the EventSource, then schedule `connectSSE`
again after 3000 ms with the same captured session id and admin token). -/

/-- `getStreamUrl` from `frontend/src/api.ts`. -/
def getStreamUrl (apiUrl sessionId adminToken : String) : String :=
  apiUrl ++ "/api/sessions/" ++ sessionId ++ "/stream?admin_token=" ++ adminToken

/-- The connection flags the Admin page keeps for the event stream. -/
structure StreamConn where
  connected : Bool
  sourceOpen : Bool
deriving Repr, DecidableEq

/-- The reconnect the `onerror` handler schedules: a delay in
milliseconds and the parameters the rescheduled `connectSSE` closure
captured. -/
structure ReconnectAction where
  delayMs : Nat
  sessionId : String
  adminToken : String
deriving Repr, DecidableEq

/-- The Admin page's `es.onerror` handler: mark disconnected, close the
source, and schedule `connectSSE` after 3000 ms with the same session id
and token. -/
def onStreamError (sessionId adminToken : String) (c : StreamConn) :
    StreamConn × ReconnectAction :=
  (StreamConn.mk false false, ReconnectAction.mk 3000 sessionId adminToken)

theorem string_append_assoc (a b c : String) : a ++ b ++ c = a ++ (b ++ c) := by
  cases a with
  | mk da =>
    cases b with
    | mk db =>
      cases c with
      | mk dc =>
        show String.mk (da ++ db ++ dc) = String.mk (da ++ (db ++ dc))
        rw [List.append_assoc]

/-- C7: on a stream failure the dashboard closes the connection and
schedules a reconnect after exactly 3000 ms carrying the same session id
and admin token, and the stream URL the new subscribe uses ends in the
admin token passed as the `admin_token` query parameter. -/
theorem stream_error_reconnect (apiUrl sessionId adminToken : String)
    (c : StreamConn) :
    (onStreamError sessionId adminToken c).1.connected = false ∧
    (onStreamError sessionId adminToken c).1.sourceOpen = false ∧
    (onStreamError sessionId adminToken c).2.delayMs = 3000 ∧
    (onStreamError sessionId adminToken c).2.sessionId = sessionId ∧
    (onStreamError sessionId adminToken c).2.adminToken = adminToken ∧
    ∃ p, getStreamUrl apiUrl (onStreamError sessionId adminToken c).2.sessionId
        (onStreamError sessionId adminToken c).2.adminToken =
      p ++ "?admin_token=" ++ adminToken := by
  refine ⟨rfl, rfl, rfl, rfl, rfl,
    apiUrl ++ "/api/sessions/" ++ sessionId ++ "/stream", ?_⟩
  show apiUrl ++ "/api/sessions/" ++ sessionId ++ "/stream?admin_token=" ++
      adminToken =
    apiUrl ++ "/api/sessions/" ++ sessionId ++ "/stream" ++ "?admin_token=" ++
      adminToken
  rw [string_append_assoc (apiUrl ++ "/api/sessions/" ++ sessionId)
    "/stream" "?admin_token="]
  rfl

/-! ## Frontend: Student submit guard

Embedded from `frontend/src/pages/Student.tsx` (`handleSubmit`): the
handler returns early unless a session id is present (and non-empty, since
an empty string is falsy) and both trimmed inputs are non-empty; otherwise
it calls `submitResponse` with the trimmed name and answer. -/

/-- The Student page's `handleSubmit`: `none` models an early return with
no network call; `some (sid, name, answer)` models the `submitResponse`
call actually issued. -/
def handleSubmit (sessionId : Option String) (studentName answer : String) :
    Option (String × String × String) :=
  match sessionId with
  | none => none
  | some sid =>
    if sid.data.isEmpty || (trimStr studentName).data.isEmpty ||
        (trimStr answer).data.isEmpty then none
    else some (sid, trimStr studentName, trimStr answer)

/-- C9: whenever the Student page issues a `submitResponse` call, the name
and answer sent are the trimmed inputs and both are non-empty; and with a
whitespace-only name or answer no call is issued at all. -/
theorem student_submit_guard (sessionId : Option String)
    (studentName answer : String) :
    (∀ sid n a, handleSubmit sessionId studentName answer = some (sid, n, a) →
      n = trimStr studentName ∧ a = trimStr answer ∧ n ≠ "" ∧ a ≠ "") ∧
    ((trimStr studentName) = "" ∨ (trimStr answer) = "" →
      handleSubmit sessionId studentName answer = none) := by
  constructor
  · intro sid n a h
    match sessionId with
    | none => cases h
    | some s =>
      rw [handleSubmit] at h
      split at h
      · cases h
      · rename_i hcond
        simp only [Bool.or_eq_true, not_or, Bool.not_eq_true,
          List.isEmpty_eq_false] at hcond
        injection h with h1
        injection h1 with hsid h2
        injection h2 with hn ha
        refine ⟨hn.symm, ha.symm, ?_, ?_⟩
        · rw [← hn]
          exact fun he => hcond.1.2 (by simp [he])
        · rw [← ha]
          exact fun he => hcond.2 (by simp [he])
  · intro hcase
    match sessionId with
    | none => rfl
    | some s =>
      rw [handleSubmit]
      rcases hcase with he | he
      · rw [if_pos (by simp [he])]
      · rw [if_pos (by simp [he])]

/-- Witness for C9: submitting with a padded name and answer issues the
call with the trimmed non-empty values. -/
theorem student_submit_guard_witness :
    ("Bob" : String) = trimStr " Bob " ∧ ("hi" : String) = trimStr " hi " ∧
      ("Bob" : String) ≠ "" ∧ ("hi" : String) ≠ "" :=
  (student_submit_guard (some "abc123") " Bob " " hi ").1 "abc123" "Bob" "hi"
    (by decide)

/-! ## Frontend: Admin dashboard summary events

Embedded from the Admin page's `summary` event listener: a successful
`JSON.parse` replaces the displayed summary, sets the displayed response
count from the payload and clears the summarization error banner; a parse
failure only logs and changes nothing. -/

/-- The `summary` event payload, as declared in `frontend/src/api.ts`. -/
structure SummaryPayload where
  themes : List Theme
  response_count : Nat
  model_used : Option String
  timestamp : String
deriving Repr, DecidableEq

/-- The Admin page state the stream listeners update. -/
structure AdminView where
  summary : Option SummaryPayload
  responseCount : Nat
  minRequired : Nat
  sseError : String
deriving Repr, DecidableEq

/-- The Admin page's `summary` event listener; `parsed` is the result of
`JSON.parse` on the event data (`none` models a parse failure, which is
caught and only logged). -/
def onSummaryEvent (st : AdminView) (parsed : Option SummaryPayload) :
    AdminView :=
  match parsed with
  | some data =>
    { st with
      summary := some data
      responseCount := data.response_count
      sseError := "" }
  | none => st

/-- C10: a parsed `summary` event replaces the displayed summary, sets the
displayed response count to the payload's count and clears the error
banner (leaving the threshold display untouched); an unparseable `summary`
event leaves the whole displayed state unchanged. -/
theorem admin_summary_event (st : AdminView) (p : SummaryPayload) :
    (onSummaryEvent st (some p)).summary = some p ∧
    (onSummaryEvent st (some p)).responseCount = p.response_count ∧
    (onSummaryEvent st (some p)).sseError = "" ∧
    (onSummaryEvent st (some p)).minRequired = st.minRequired ∧
    onSummaryEvent st none = st :=
  ⟨rfl, rfl, rfl, rfl, rfl⟩

end ThemePulse
